import Mathlib

/-!
Shallow embedding of the `ark-tx-builder` Go repository
(`types.go`, `taproot.go`, `commitment.go` (first/most complete version),
`forfeit.go`, and the boarding builder embedded in the repository alongside
`estimateTxSize`, `sortScripts`, `sortTxOutputs`).

Bytes are modelled as `List Nat` (each entry a byte value), amounts as `Int`
(Go `int64`; no computation here approaches 2^63 so overflow is not modelled),
and the out-of-scope secp256k1 / SHA-256 / address-decoding primitive library
(btcec, chainhash, btcutil, the declared external collaborator of the spec)
is abstracted as a `Primitives` structure whose operations the builders call
exactly where the Go code calls the corresponding library functions.
-/

namespace ArkTx

/-- Go `bytes.Compare`: lexicographic byte comparison, a shorter prefix
compares less than its extensions. -/

def byteCompare : List Nat → List Nat → Ordering
  | [], [] => .eq
  | [], _ :: _ => .lt
  | _ :: _, [] => .gt
  | a :: as, b :: bs =>
    if a < b then .lt else if b < a then .gt else byteCompare as bs

/-- Generic insertion used by the deterministic sorts.  Go uses
`sort.Slice` with a strict `less` callback; we model it as insertion sort
on the corresponding non-strict total order, which produces the same
sorted result on lists whose compare-equal elements are equal (the only
situation the builders create). -/

def insertSorted (le : α → α → Bool) (a : α) : List α → List α
  | [] => [a]
  | b :: t => if le a b then a :: b :: t else b :: insertSorted le a t

/-- Deterministic sort by the boolean order `le`. -/

def sortBy (le : α → α → Bool) : List α → List α
  | [] => []
  | a :: t => insertSorted le a (sortBy le t)

/-- Little-endian base-256 digits of `n` (`fuel` bounds the recursion;
`leBytes` supplies a sufficient fuel). -/

def leBytesAux : Nat → Nat → List Nat
  | 0, _ => []
  | _ + 1, 0 => []
  | fuel + 1, n => n % 256 :: leBytesAux fuel (n / 256)

/-- Little-endian byte encoding of a natural number (empty for 0), as
produced by btcd's `scriptNum` serialization loop. -/

def leBytes (n : Nat) : List Nat := leBytesAux n n

/-- btcd `scriptNum.Bytes()`: little-endian sign-magnitude encoding; a
sign-bit byte is appended when the top byte would collide with the sign
bit. -/

def scriptNumBytes (v : Int) : List Nat :=
  let mag := leBytes v.natAbs
  if v < 0 then
    if 128 ≤ mag.getLastD 0 then mag ++ [128]
    else mag.dropLast ++ [mag.getLastD 0 + 128]
  else
    if 128 ≤ mag.getLastD 0 then mag ++ [0]
    else mag

/-- Four little-endian bytes of `n` (btcd `OP_PUSHDATA4` length prefix). -/

def leBytes4 (n : Nat) : List Nat :=
  [n % 256, n / 256 % 256, n / 65536 % 256, n / 16777216 % 256]

/-- btcd `ScriptBuilder.AddData`: canonical (minimal) data push.
`OP_0 = 0x00`, small ints `OP_1..OP_16 = 0x51..0x60`, `OP_1NEGATE = 0x4f`,
direct pushes below `OP_PUSHDATA1 = 0x4c`, then length-prefixed pushes. -/

def addDataPush (d : List Nat) : List Nat :=
  if d.length = 0 then [0]
  else if d.length = 1 then
    let b := d.headD 0
    if b = 0 then [0]
    else if b ≤ 16 then [80 + b]
    else if b = 129 then [79]
    else [1, b]
  else if d.length < 76 then d.length :: d
  else if d.length ≤ 255 then [76, d.length] ++ d
  else if d.length ≤ 65535 then [77, d.length % 256, d.length / 256] ++ d
  else [78] ++ leBytes4 d.length ++ d

/-- btcd `ScriptBuilder.AddInt64`: zero and small values become dedicated
opcodes, anything else a canonical push of the script-number encoding. -/

def addInt64Push (v : Int) : List Nat :=
  if v = 0 then [0]
  else if v = -1 then [79]
  else if 1 ≤ v ∧ v ≤ 16 then [80 + v.toNat]
  else addDataPush (scriptNumBytes v)

/-! ### The out-of-scope primitive library (spec §1/§2: external collaborator)

The spec declares elliptic-curve point types and arithmetic, x-only (Schnorr)
serialization, SHA-256, the taproot output-key tweak and address decoding to
be supplied by the btcsuite library and out of scope for this core.  They are
abstracted here as a structure of operations; the builders below invoke each
field exactly where the Go code invokes the corresponding library function. -/

/-- Abstraction of the btcec/chainhash/btcutil primitives used by the code:
`Point`/`inf`/`addPt`/`smul`/`toAffine` model `btcec.JacobianPoint` with
`AddNonConst`/`ScalarMultNonConst`/`ToAffine` (the zero-initialized Jacobian
accumulator of `MuSig2AggregateKeys` is the infinity point `inf`);
`serXOnly` models `schnorr.SerializePubKey` (32 bytes); `sha256` models
`crypto/sha256`; `curveOrder` is the secp256k1 group order that
`ModNScalar.SetByteSlice` reduces by; `tweakKey` models
`txscript.ComputeTaprootOutputKey`; `numsPoint` is the result of parsing the
fixed 32-byte NUMS constant of `CreateTaprootScript` (a valid x-only key, so
`schnorr.ParsePubKey` cannot fail on it); `decodeAddrScript` models
`btcutil.DecodeAddress` followed by `txscript.PayToAddrScript`, `none`
signalling that either step returned an error. -/

structure Primitives where
  Point : Type
  inf : Point
  addPt : Point → Point → Point
  smul : Nat → Point → Point
  toAffine : Point → Point
  serXOnly : Point → List Nat
  sha256 : List Nat → List Nat
  curveOrder : Nat
  tweakKey : Point → List Nat → Point
  numsPoint : Point
  decodeAddrScript : String → Option (List Nat)

/-- Big-endian interpretation of a byte list as a natural number, as
`ModNScalar.SetByteSlice` reads its input before reducing mod the order. -/

def beNat (l : List Nat) : Nat := l.foldl (fun acc b => acc * 256 + b) 0

/-- Non-strict order on points by their x-only serialization: the sort key
of `MuSig2AggregateKeys` (Go: `bytes.Compare(ser i, ser j) < 0`). -/

def serLe (C : Primitives) (a b : C.Point) : Bool :=
  !(byteCompare (C.serXOnly b) (C.serXOnly a) == Ordering.lt)

/-- `MuSig2AggregateKeys` (taproot.go): sort the keys by x-only
serialization, hash the concatenated list into `L`, scale each key by
`H(L || ser(key))` reduced mod the curve order, and sum in Jacobian
coordinates starting from the zero-initialized (infinity) accumulator. -/

def MuSig2AggregateKeys (C : Primitives) (pubKeys : List C.Point) :
    Except String C.Point :=
  if pubKeys.length = 0 then
    .error "at least one public key is required"
  else
    let sortedKeys := sortBy (serLe C) pubKeys
    let keyListHash := C.sha256 (sortedKeys.map C.serXOnly).flatten
    let aggPoint := sortedKeys.foldl
      (fun acc pk =>
        let coefHash := C.sha256 (keyListHash ++ C.serXOnly pk)
        let coefScalar := beNat coefHash % C.curveOrder
        C.addPt acc (C.smul coefScalar pk))
      C.inf
    .ok (C.toAffine aggPoint)

/-! ### Tagged hashing and the tapscript merkle tree (taproot.go) -/

/-- `taggedHash` (taproot.go): BIP-340 tagged hash
`SHA256(SHA256(tag) || SHA256(tag) || data)`. -/

def taggedHash (C : Primitives) (tag : String) (data : List Nat) : List Nat :=
  let tagHash := C.sha256 (tag.toList.map Char.toNat)
  C.sha256 (tagHash ++ tagHash ++ data)

/-- Bitcoin wire `varint` (compact-size) encoding written by
`wire.WriteVarBytes` before the payload. -/

def varIntBytes (n : Nat) : List Nat :=
  if n < 253 then [n]
  else if n ≤ 65535 then [253, n % 256, n / 256]
  else if n ≤ 4294967295 then [254] ++ leBytes4 n
  else [255] ++ leBytes4 n ++ leBytes4 (n / 4294967296)

/-- `tapLeafHash` (taproot.go): tagged hash of the leaf version byte
(`txscript.BaseLeafVersion = 0xc0`) followed by the compact-size-prefixed
script. -/

def tapLeafHash (C : Primitives) (script : List Nat) : List Nat :=
  taggedHash C "TapLeaf" (192 :: (varIntBytes script.length ++ script))

/-- `tapBranchHash` (taproot.go): tagged hash of the two child hashes,
byte-order-sorted before concatenation. -/

def tapBranchHash (C : Primitives) (left right : List Nat) : List Nat :=
  if byteCompare left right == Ordering.gt then
    taggedHash C "TapBranch" (right ++ left)
  else
    taggedHash C "TapBranch" (left ++ right)

/-- One pass of the merkle loop in `buildTapscriptMerkleRoot`: combine
adjacent pairs, promoting an odd trailing node unchanged. -/

def pairLevel (C : Primitives) : List (List Nat) → List (List Nat)
  | [] => []
  | [x] => [x]
  | x :: y :: rest => tapBranchHash C x y :: pairLevel C rest

/-- The `for len(leaves) > 1` loop of `buildTapscriptMerkleRoot`.  The
fuel argument (initialized to the list length by `merkleLoop`) bounds the
number of levels; it can never run out, since every pass on two or more
nodes strictly shortens the list. -/

def merkleLoopAux (C : Primitives) : Nat → List (List Nat) → List Nat
  | _, [] => []
  | _, [x] => x
  | 0, x :: _ :: _ => x
  | fuel + 1, x :: y :: rest => merkleLoopAux C fuel (pairLevel C (x :: y :: rest))

/-- The merkle loop of `buildTapscriptMerkleRoot`: fold levels until one
root remains. -/

def merkleLoop (C : Primitives) (leaves : List (List Nat)) : List Nat :=
  merkleLoopAux C leaves.length leaves

/-- `buildTapscriptMerkleRoot` (taproot.go): hash every script into a leaf,
then fold levels pairwise until a single root remains (`nil`, modelled as
`[]`, for an empty script list). -/

def buildTapscriptMerkleRoot (C : Primitives) (scripts : List (List Nat)) :
    List Nat :=
  if scripts.length = 0 then []
  else merkleLoop C (scripts.map (tapLeafHash C))

/-! ### Script assembly (taproot.go) -/

/-- `BuildCheckSigScript`: push the x-only key, then `OP_CHECKSIG` (0xac). -/

def BuildCheckSigScript (C : Primitives) (pubKey : C.Point) : List Nat :=
  addDataPush (C.serXOnly pubKey) ++ [172]

/-- `BuildCheckSigWithTimelockScript`: key push, `OP_CHECKSIGVERIFY` (0xad),
the block count, `OP_CHECKSEQUENCEVERIFY` (0xb2). -/

def BuildCheckSigWithTimelockScript (C : Primitives) (pubKey : C.Point)
    (blocks : Nat) : List Nat :=
  addDataPush (C.serXOnly pubKey) ++ [173] ++ addInt64Push blocks ++ [178]

/-- `BuildCheckSigWithAbsTimelockScript`: key push, `OP_CHECKSIGVERIFY`
(0xad), the lock height, `OP_CHECKLOCKTIMEVERIFY` (0xb1). -/

def BuildCheckSigWithAbsTimelockScript (C : Primitives) (pubKey : C.Point)
    (lockTime : Nat) : List Nat :=
  addDataPush (C.serXOnly pubKey) ++ [173] ++ addInt64Push lockTime ++ [177]

/-- `CreateTaprootScript` (taproot.go): substitute the NUMS point for a
missing internal key, tweak by the script-tree merkle root when scripts are
present, and emit the version-1 witness program
`OP_1 (0x51) <32-byte x-only key>`. -/

def CreateTaprootScript (C : Primitives) (internalPubKey : Option C.Point)
    (scripts : List (List Nat)) : List Nat :=
  let internalKey := match internalPubKey with
    | none => C.numsPoint
    | some k => k
  let taprootKey :=
    if scripts.length = 0 then internalKey
    else C.tweakKey internalKey (buildTapscriptMerkleRoot C scripts)
  [81] ++ addDataPush (C.serXOnly taprootKey)

/-! ### Transaction data model (wire.MsgTx, types.go) -/

/-- A `wire.TxIn` as the builders create it: previous outpoint (32-byte
hash, index), signature script (always empty here) and sequence number. -/

structure TxIn where
  prevHash : List Nat
  prevIndex : Nat
  signatureScript : List Nat
  sequence : Nat
deriving DecidableEq

/-- A `wire.TxOut`: amount in satoshis and output script. -/

structure TxOut where
  value : Int
  pkScript : List Nat
deriving DecidableEq

/-- A `wire.MsgTx` as produced by the builders (unsigned, no witness). -/

structure MsgTx where
  version : Int
  txIn : List TxIn
  txOut : List TxOut
  lockTime : Nat
deriving DecidableEq

/-- `UTXO` (types.go). -/

structure UTXO where
  txHash : List Nat
  outputIndex : Nat
  amount : Int
  scriptPubKey : List Nat
deriving DecidableEq

/-- `TxVersion = 2` (types.go). -/

def TxVersion : Int := 2

/-- `SequenceBoardingTx = 0xFFFFFFFD` (types.go). -/

def SequenceBoardingTx : Nat := 4294967293

/-- `SequenceCommitmentTx = 0xFFFFFFFF` (types.go). -/

def SequenceCommitmentTx : Nat := 4294967295

/-- `SequenceForfeitTx = 0xFFFFFFFF` (types.go). -/

def SequenceForfeitTx : Nat := 4294967295

/-- `DustLimit = 546` (types.go). -/

def DustLimit : Int := 546

/-- `MinFeeRate = 1` (types.go). -/

def MinFeeRate : Int := 1

/-- Number of bytes of the wire varint for `n` (`wire.VarIntSerializeSize`). -/

def varIntSize (n : Nat) : Nat :=
  if n < 253 then 1
  else if n ≤ 65535 then 3
  else if n ≤ 4294967295 then 5
  else 9

/-- Serialized size of one input: 36-byte outpoint, varint-prefixed
signature script, 4-byte sequence. -/

def txInSerSize (i : TxIn) : Nat :=
  40 + varIntSize i.signatureScript.length + i.signatureScript.length

/-- Serialized size of one output: 8-byte value, varint-prefixed script. -/

def txOutSerSize (o : TxOut) : Nat :=
  8 + varIntSize o.pkScript.length + o.pkScript.length

/-- `wire.MsgTx.SerializeSize` for a witness-free transaction: version and
lock-time (8 bytes), the two varint counts, and the inputs and outputs. -/

def serializeSize (tx : MsgTx) : Nat :=
  8 + varIntSize tx.txIn.length + varIntSize tx.txOut.length
    + (tx.txIn.map txInSerSize).sum + (tx.txOut.map txOutSerSize).sum

/-- `estimateTxSize` (boarding builder file): virtual size from the base
serialized size plus an estimated 66-byte P2TR witness per input, rounded
up (`weight = base*4 + witness`, `vsize = (weight+3)/4`). -/

def estimateTxSize (tx : MsgTx) (numInputs witnessSize : Nat) : Int :=
  let baseSize := serializeSize tx
  let w := if witnessSize = 0 then numInputs * 66 else witnessSize
  let weight := baseSize * 4 + w
  ((weight + 3) / 4 : Nat)

/-! ### Deterministic ordering (sortScripts, sortTxInputs, sortTxOutputs) -/

/-- The strict comparator of `sortScripts`: shorter first, then the first
differing byte decides. -/

def scriptLtAux : List Nat → List Nat → Bool
  | a :: as, b :: bs =>
    if a < b then true else if b < a then false else scriptLtAux as bs
  | _, _ => false

/-- `sortScripts` comparator: length, then lexicographic. -/

def scriptLt (a b : List Nat) : Bool :=
  if a.length ≠ b.length then decide (a.length < b.length)
  else scriptLtAux a b

/-- Non-strict form of `scriptLt` used by the insertion-sort model. -/

def scriptLe (a b : List Nat) : Bool := !(scriptLt b a)

/-- `sortScripts` (boarding builder file): deterministic sort of scripts by
length then bytes. -/

def sortScripts (scripts : List (List Nat)) : List (List Nat) :=
  sortBy scriptLe scripts

/-- The strict comparator of `sortTxInputs` (commitment.go): previous tx
hash bytes, ties by previous output index. -/

def inLt (a b : TxIn) : Bool :=
  match byteCompare a.prevHash b.prevHash with
  | .lt => true
  | .gt => false
  | .eq => decide (a.prevIndex < b.prevIndex)

/-- Non-strict form of `inLt`. -/

def inLe (a b : TxIn) : Bool := !(inLt b a)

/-- `sortTxInputs` (commitment.go). -/

def sortTxInputs (tx : MsgTx) : MsgTx :=
  { tx with txIn := sortBy inLe tx.txIn }

/-- The strict comparator of `sortTxOutputs`: amount, then script (length
then bytes). -/

def outLt (a b : TxOut) : Bool :=
  if a.value ≠ b.value then decide (a.value < b.value)
  else scriptLt a.pkScript b.pkScript

/-- Non-strict form of `outLt`. -/

def outLe (a b : TxOut) : Bool := !(outLt b a)

/-- `sortTxOutputs` (boarding builder file): BIP-69-style output sort. -/

def sortTxOutputs (tx : MsgTx) : MsgTx :=
  { tx with txOut := sortBy outLe tx.txOut }

/-! ### Builder parameters (types.go) -/

/-- `BoardingTxParams`. -/

structure BoardingTxParams (C : Primitives) where
  fundingUTXO : Option UTXO
  amount : Int
  userPubKey : Option C.Point
  operatorPubKey : Option C.Point
  timeoutBlocks : Nat
  changeAddress : String
  feeRate : Int

/-- `CommitmentTxParams`. -/

structure CommitmentTxParams (C : Primitives) where
  operatorUTXOs : List UTXO
  boardingOutputs : List UTXO
  batchAmount : Int
  connectorAmount : Int
  operatorPubKey : Option C.Point
  userPubKeys : List C.Point
  batchExpiry : Nat
  feeRate : Int

/-- `ForfeitTxParams`. -/

structure ForfeitTxParams (C : Primitives) where
  vtxo : Option UTXO
  connectorAnchor : Option UTXO
  operatorPubKey : Option C.Point
  feeRate : Int

/-! ### Transaction builders

Go passes `params` by pointer and the builders assign to `params.FeeRate`
in place; each builder is therefore modelled as returning both its
`(*wire.MsgTx, error)` result and the params value as it stands after the
call. -/

/-- The portion of `BuildBoardingTx` after parameter validation and the
fee-rate clamp (the Go code from `newDeterministicTx` to the final
`sortTxOutputs`). -/

def buildBoardingTxBody (C : Primitives) (p : BoardingTxParams C)
    (fu : UTXO) (uk opk : C.Point) : Except String MsgTx :=
  let txIn1 : TxIn :=
    { prevHash := fu.txHash, prevIndex := fu.outputIndex,
      signatureScript := [], sequence := SequenceBoardingTx }
  match MuSig2AggregateKeys C [uk, opk] with
  | .error e => .error e
  | .ok aggKey =>
    let path1Script := BuildCheckSigScript C aggKey
    let path2Script := BuildCheckSigWithTimelockScript C uk p.timeoutBlocks
    let scripts := sortScripts [path1Script, path2Script]
    let taprootScript := CreateTaprootScript C none scripts
    let tx1 : MsgTx :=
      { version := TxVersion, txIn := [txIn1],
        txOut := [{ value := p.amount, pkScript := taprootScript }],
        lockTime := 0 }
    let fee := estimateTxSize tx1 1 0 * p.feeRate
    let change := fu.amount - p.amount - fee
    if change > DustLimit ∧ p.changeAddress ≠ "" then
      match C.decodeAddrScript p.changeAddress with
      | none => .error "invalid change address"
      | some changeScript =>
        let tx2 : MsgTx :=
          { tx1 with
            txOut := tx1.txOut ++ [{ value := change, pkScript := changeScript }] }
        let fee2 := estimateTxSize tx2 1 0 * p.feeRate
        let change2 := fu.amount - p.amount - fee2
        let tx3 : MsgTx :=
          if change2 > DustLimit then
            { tx2 with
              txOut := [{ value := p.amount, pkScript := taprootScript },
                        { value := change2, pkScript := changeScript }] }
          else
            { tx2 with
              txOut := [{ value := p.amount, pkScript := taprootScript }] }
        .ok (sortTxOutputs tx3)
    else
      .ok (sortTxOutputs tx1)

/-- `BuildBoardingTx` (boarding builder file): validations in source order
(funding UTXO present, both keys present, positive amount), in-place
fee-rate clamp, then the body above. -/

def BuildBoardingTx (C : Primitives) (p : BoardingTxParams C) :
    Except String MsgTx × BoardingTxParams C :=
  match p.fundingUTXO with
  | none => (.error "funding UTXO is required", p)
  | some fu =>
    match p.userPubKey, p.operatorPubKey with
    | some uk, some opk =>
      if p.amount ≤ 0 then (.error "amount must be positive", p)
      else
        let p' := if p.feeRate < MinFeeRate then { p with feeRate := MinFeeRate } else p
        (buildBoardingTxBody C p' fu uk opk, p')
    | _, _ => (.error "user and operator public keys are required", p)

/-- The inputs of a commitment transaction: operator UTXOs then boarding
outputs, each with sequence `SequenceCommitmentTx`, then `sortTxInputs`. -/

def commitmentInputs (C : Primitives) (p : CommitmentTxParams C) : List TxIn :=
  sortBy inLe ((p.operatorUTXOs ++ p.boardingOutputs).map fun u =>
    { prevHash := u.txHash, prevIndex := u.outputIndex,
      signatureScript := [], sequence := SequenceCommitmentTx })

/-- `totalInput` of `BuildCommitmentTx`: the summation loops over operator
UTXOs and boarding outputs. -/

def commitmentTotalInput (C : Primitives) (p : CommitmentTxParams C) : Int :=
  ((p.operatorUTXOs ++ p.boardingOutputs).map UTXO.amount).foldl (· + ·) 0

/-- The portion of `BuildCommitmentTx` (first version in commitment.go)
after validation and the fee-rate clamp: build and sort the inputs, the
batch output (sweep + unroll leaves), the connector output, then check the
funds cover outputs plus fee. -/

def buildCommitmentTxBody (C : Primitives) (p : CommitmentTxParams C)
    (opk : C.Point) (connectorAmount : Int) : Except String MsgTx :=
  let sweepScript := BuildCheckSigWithAbsTimelockScript C opk p.batchExpiry
  let unrollRes : Except String (List Nat) :=
    if 0 < p.userPubKeys.length then
      match MuSig2AggregateKeys C p.userPubKeys with
      | .error e => .error e
      | .ok aggUserKey => .ok (BuildCheckSigScript C aggUserKey)
    else .ok sweepScript
  match unrollRes with
  | .error e => .error e
  | .ok unrollScript =>
    let batchScripts := sortScripts [sweepScript, unrollScript]
    let batchScript := CreateTaprootScript C none batchScripts
    let connectorScript := BuildCheckSigScript C opk
    let connectorTaprootScript := CreateTaprootScript C none [connectorScript]
    let tx : MsgTx :=
      { version := TxVersion, txIn := commitmentInputs C p,
        txOut := [{ value := p.batchAmount, pkScript := batchScript },
                  { value := connectorAmount, pkScript := connectorTaprootScript }],
        lockTime := 0 }
    let totalInput := commitmentTotalInput C p
    let totalOutput := p.batchAmount + connectorAmount
    let fee := estimateTxSize tx tx.txIn.length 0 * p.feeRate
    if totalInput < totalOutput + fee then
      .error "insufficient input amount to cover outputs and fees"
    else
      .ok tx

/-- `BuildCommitmentTx` (first version in commitment.go): validations in
source order (non-empty operator UTXOs, operator key present, positive
batch amount), connector amount floored to the dust limit in a local
variable, in-place fee-rate clamp, then the body above. -/

def BuildCommitmentTx (C : Primitives) (p : CommitmentTxParams C) :
    Except String MsgTx × CommitmentTxParams C :=
  if p.operatorUTXOs.length = 0 then
    (.error "at least one operator UTXO is required", p)
  else
    match p.operatorPubKey with
    | none => (.error "operator public key is required", p)
    | some opk =>
      if p.batchAmount ≤ 0 then (.error "batch amount must be positive", p)
      else
        let connectorAmount :=
          if p.connectorAmount < DustLimit then DustLimit else p.connectorAmount
        let p' := if p.feeRate < MinFeeRate then { p with feeRate := MinFeeRate } else p
        (buildCommitmentTxBody C p' opk connectorAmount, p')

/-- The portion of `BuildForfeitTx` (forfeit.go) after validation and the
fee-rate clamp: the two fixed-order inputs, the single operator taproot
output, and the fee check. -/

def buildForfeitTxBody (C : Primitives) (p : ForfeitTxParams C)
    (vt an : UTXO) (opk : C.Point) : Except String MsgTx :=
  let vtxoIn : TxIn :=
    { prevHash := vt.txHash, prevIndex := vt.outputIndex,
      signatureScript := [], sequence := SequenceForfeitTx }
  let anchorIn : TxIn :=
    { prevHash := an.txHash, prevIndex := an.outputIndex,
      signatureScript := [], sequence := SequenceForfeitTx }
  let tx : MsgTx :=
    { version := TxVersion, txIn := [vtxoIn, anchorIn], txOut := [],
      lockTime := 0 }
  let operatorScript := BuildCheckSigScript C opk
  let taprootScript := CreateTaprootScript C none [operatorScript]
  let totalInput := vt.amount + an.amount
  let fee := estimateTxSize tx 2 0 * p.feeRate
  let outputAmount := totalInput - fee
  if outputAmount ≤ 0 then
    .error "insufficient input amount to cover fees"
  else
    .ok { tx with txOut := [{ value := outputAmount, pkScript := taprootScript }] }

/-- `BuildForfeitTx` (forfeit.go): validations in source order (VTXO,
anchor and operator key present, both amounts positive), in-place fee-rate
clamp, then the body above. -/

def BuildForfeitTx (C : Primitives) (p : ForfeitTxParams C) :
    Except String MsgTx × ForfeitTxParams C :=
  match p.vtxo with
  | none => (.error "VTXO is required", p)
  | some vt =>
    match p.connectorAnchor with
    | none => (.error "connector anchor is required", p)
    | some an =>
      match p.operatorPubKey with
      | none => (.error "operator public key is required", p)
      | some opk =>
        if vt.amount ≤ 0 then (.error "VTXO amount must be positive", p)
        else if an.amount ≤ 0 then
          (.error "connector anchor amount must be positive", p)
        else
          let p' := if p.feeRate < MinFeeRate then { p with feeRate := MinFeeRate } else p
          (buildForfeitTxBody C p' vt an opk, p')

/-! ### A concrete executable instantiation of the primitive library

Used to evaluate the builders on concrete inputs (witnesses and
counterexamples).  The claims proved generically hold for every
`Primitives` whose serializations are 32 bytes; this instance keeps the
arithmetic trivial so that the kernel can evaluate it. -/

/-- Executable stand-in for the primitive library: points are naturals,
serializations and hashes are 32-byte lists. -/

def toyPrims : Primitives where
  Point := Nat
  inf := 0
  addPt := (· + ·)
  smul := (· * ·)
  toAffine := id
  serXOnly := fun pt => List.replicate 31 0 ++ [pt % 256]
  sha256 := fun l => List.replicate 31 1 ++ [(l.foldl (· + ·) 0) % 256]
  curveOrder := 97
  tweakKey := fun pt h => pt + h.foldl (· + ·) 0
  numsPoint := 7
  decodeAddrScript := fun s =>
    if s = "" then none else some ([0, 20] ++ List.replicate 20 3)

/-- A concrete point of the executable instantiation. -/

def toyPt (n : Nat) : toyPrims.Point := n

/-- A concrete 32-byte previous-transaction hash used by witnesses. -/

def testHash1 : List Nat := List.replicate 31 0 ++ [1]

/-! ### Reference definitions taken from the spec's words (for the
refinement claims C1 and C2) -/

/-- Reference algorithm of spec §4.1 / claim C1, written from the spec's
words: sort the input keys ascending by their 32-byte serialized encoding,
compute `L` as the hash of the concatenated sorted serializations, give
each sorted key `P` the coefficient `Hash(L || serialize(P))` interpreted
as a scalar modulo the curve order, and return the affine form of
`Q = Σ a_i · P_i`. -/

def specAggregateKey (C : Primitives) (keys : List C.Point) : C.Point :=
  let sorted := sortBy (serLe C) keys
  let L := C.sha256 (sorted.map C.serXOnly).flatten
  C.toAffine
    ((sorted.map fun P =>
        C.smul (beNat (C.sha256 (L ++ C.serXOnly P)) % C.curveOrder) P).foldl
      C.addPt C.inf)

/-- Leaf hash as the spec words it:
`Hash("TapLeaf", leafVersionByte || compactSize(len(script)) || script)`. -/

def specLeafHash (C : Primitives) (script : List Nat) : List Nat :=
  taggedHash C "TapLeaf" ([192] ++ varIntBytes script.length ++ script)

/-- The byte-order-sorted pair of the spec's branch-hash step. -/

def specSortedPair (l r : List Nat) : List Nat × List Nat :=
  if byteCompare l r == Ordering.gt then (r, l) else (l, r)

/-- Branch hash as the spec words it:
`Hash("TapBranch", sortedPair(left, right))`. -/

def specBranchHash (C : Primitives) (l r : List Nat) : List Nat :=
  taggedHash C "TapBranch" ((specSortedPair l r).1 ++ (specSortedPair l r).2)

/-- One bottom-up folding level of the spec: adjacent pairs become branch
hashes, an odd node at the end of a level is promoted unchanged. -/

def specCombineLevel (C : Primitives) : List (List Nat) → List (List Nat)
  | [] => []
  | [x] => [x]
  | x :: y :: rest => specBranchHash C x y :: specCombineLevel C rest

/-- Fold the levels of node hashes until one root remains (spec); fuel as
in `merkleLoopAux`. -/

def specRootLoopAux (C : Primitives) : Nat → List (List Nat) → List Nat
  | _, [] => []
  | _, [x] => x
  | 0, x :: _ :: _ => x
  | fuel + 1, x :: y :: rest =>
    specRootLoopAux C fuel (specCombineLevel C (x :: y :: rest))

/-- Fold the levels of node hashes until one root remains (spec). -/

def specRootLoop (C : Primitives) (leaves : List (List Nat)) : List Nat :=
  specRootLoopAux C leaves.length leaves

/-- The merkle root as the spec describes it for a non-empty leaf list. -/

def specMerkleRoot (C : Primitives) (scripts : List (List Nat)) : List Nat :=
  specRootLoop C (scripts.map (specLeafHash C))

/-- The taproot script of the boarding deposit output (cooperative leaf
over the aggregate key, timeout leaf over the user key, leaves
canonicalized). -/

def boardingOutputScript (C : Primitives) (uk opk : C.Point)
    (blocks : Nat) : List Nat :=
  CreateTaprootScript C none (sortScripts
    [BuildCheckSigScript C (specAggregateKey C [uk, opk]),
     BuildCheckSigWithTimelockScript C uk blocks])

/-- Commitment parameters whose batch amount (545) is positive but below
the dust floor (546), otherwise amply funded: one 500000-satoshi operator
UTXO, a 1000-satoshi connector, fee rate 1. -/

def dustBatchParams (C : Primitives) (k : C.Point) : CommitmentTxParams C :=
  { operatorUTXOs :=
      [{ txHash := testHash1, outputIndex := 0, amount := 500000,
         scriptPubKey := [] }],
    boardingOutputs := [],
    batchAmount := 545, connectorAmount := 1000,
    operatorPubKey := some k, userPubKeys := [],
    batchExpiry := 800000, feeRate := 1 }

/-- Commitment parameters with a boarding-output UTXO of negative amount
(-1), otherwise amply funded. -/

def negBoardingParams (C : Primitives) (k : C.Point) : CommitmentTxParams C :=
  { operatorUTXOs :=
      [{ txHash := testHash1, outputIndex := 0, amount := 500000,
         scriptPubKey := [] }],
    boardingOutputs :=
      [{ txHash := testHash1, outputIndex := 1, amount := -1,
         scriptPubKey := [] }],
    batchAmount := 400000, connectorAmount := 1000,
    operatorPubKey := some k, userPubKeys := [],
    batchExpiry := 800000, feeRate := 1 }

/-- Boarding parameters whose deposit amount (545) is positive but below
the dust floor, with no change address and ample funding. -/

def dustAmountBoardingParams (C : Primitives) (uk opk : C.Point) :
    BoardingTxParams C :=
  { fundingUTXO :=
      some { txHash := testHash1, outputIndex := 0, amount := 100000,
             scriptPubKey := [] },
    amount := 545, userPubKey := some uk, operatorPubKey := some opk,
    timeoutBlocks := 144, changeAddress := "", feeRate := 1 }

/-- Boarding parameters whose funding UTXO has amount 0 (non-positive). -/

def zeroFundingBoardingParams (C : Primitives) (uk opk : C.Point) :
    BoardingTxParams C :=
  { fundingUTXO :=
      some { txHash := testHash1, outputIndex := 0, amount := 0,
             scriptPubKey := [] },
    amount := 90000, userPubKey := some uk, operatorPubKey := some opk,
    timeoutBlocks := 144, changeAddress := "", feeRate := 1 }

/-- The two fixed-order forfeit inputs: VTXO outpoint first, connector
anchor second (forfeit.go). -/

def forfeitIns (vt an : UTXO) : List TxIn :=
  [{ prevHash := vt.txHash, prevIndex := vt.outputIndex,
     signatureScript := [], sequence := SequenceForfeitTx },
   { prevHash := an.txHash, prevIndex := an.outputIndex,
     signatureScript := [], sequence := SequenceForfeitTx }]

/-- The fee `BuildForfeitTx` charges: estimated size of the two-input,
zero-output skeleton times the clamped fee rate. -/

def forfeitFee (C : Primitives) (p : ForfeitTxParams C) (vt an : UTXO) : Int :=
  estimateTxSize
      { version := TxVersion, txIn := forfeitIns vt an, txOut := [],
        lockTime := 0 } 2 0 *
    (if p.feeRate < MinFeeRate then MinFeeRate else p.feeRate)

/-- A commitment-parameter value on which the builder succeeds, used to
witness C6 and C7. -/

def c6Params : CommitmentTxParams toyPrims :=
  { operatorUTXOs :=
      [{ txHash := testHash1, outputIndex := 0, amount := 500000,
         scriptPubKey := [] }],
    boardingOutputs := [],
    batchAmount := 400000, connectorAmount := 1000,
    operatorPubKey := some (toyPt 5), userPubKeys := [],
    batchExpiry := 800000, feeRate := 1 }

/-- The result of building `c6Params`. -/

def c6Pair : Except String MsgTx × CommitmentTxParams toyPrims :=
  BuildCommitmentTx toyPrims c6Params

/-- The transaction built from `c6Params`. -/

def c6Tx : MsgTx :=
  c6Pair.fst.toOption.getD { version := 0, txIn := [], txOut := [], lockTime := 0 }

/-- A forfeit-parameter value on which the builder succeeds. -/

def c8Params : ForfeitTxParams toyPrims :=
  { vtxo := some { txHash := testHash1, outputIndex := 0, amount := 50000,
                   scriptPubKey := [] },
    connectorAnchor := some { txHash := testHash1, outputIndex := 1,
                              amount := 1000, scriptPubKey := [] },
    operatorPubKey := some (toyPt 5), feeRate := 1 }

/-- Boarding parameters passing every validation of `BuildBoardingTx` but
whose funding (100 satoshis) is far below the deposit amount plus fee. -/

def c10Params : BoardingTxParams toyPrims :=
  { fundingUTXO :=
      some { txHash := testHash1, outputIndex := 0, amount := 100,
             scriptPubKey := [] },
    amount := 90000, userPubKey := some (toyPt 3),
    operatorPubKey := some (toyPt 5), timeoutBlocks := 144,
    changeAddress := "", feeRate := 1 }

/-- The result of building `c10Params`. -/

def c10Pair : Except String MsgTx × BoardingTxParams toyPrims :=
  BuildBoardingTx toyPrims c10Params

/-- The transaction built from `c10Params`. -/

def c10Tx : MsgTx :=
  c10Pair.fst.toOption.getD { version := 0, txIn := [], txOut := [], lockTime := 0 }

/-- Commitment parameters with two operator UTXOs, for the C7 witness. -/

def c7Params : CommitmentTxParams toyPrims :=
  { c6Params with
    operatorUTXOs :=
      [{ txHash := testHash1, outputIndex := 0, amount := 300000,
         scriptPubKey := [] },
       { txHash := testHash1, outputIndex := 1, amount := 200000,
         scriptPubKey := [] }] }

/-- Boarding parameters with a change address, funding 200000 and deposit
90000, for the C5 witness. -/

def c5Params : BoardingTxParams toyPrims :=
  { fundingUTXO :=
      some { txHash := testHash1, outputIndex := 0, amount := 200000,
             scriptPubKey := [] },
    amount := 90000, userPubKey := some (toyPt 3),
    operatorPubKey := some (toyPt 5), timeoutBlocks := 144,
    changeAddress := "addr", feeRate := 1 }

theorem toyPrims_ser_len (pt : toyPrims.Point) :
    (toyPrims.serXOnly pt).length = 32 := by
  simp [toyPrims]

/-! ### Properties of the deterministic sorts -/

theorem insertSorted_perm (le : α → α → Bool) (a : α) (l : List α) :
    (insertSorted le a l).Perm (a :: l) := by
  induction l with
  | nil => simp [insertSorted]
  | cons b t ih =>
    by_cases h : le a b = true
    · simp [insertSorted, h]
    · simp only [insertSorted, h]
      simp only [Bool.false_eq_true, if_false]
      exact ((ih.cons b).trans (List.Perm.swap a b t))

theorem sortBy_perm (le : α → α → Bool) (l : List α) : (sortBy le l).Perm l := by
  induction l with
  | nil => simp [sortBy]
  | cons a t ih =>
    exact (insertSorted_perm le a (sortBy le t)).trans (ih.cons a)

theorem pairwise_insertSorted (le : α → α → Bool)
    (htot : ∀ x y, le x y = true ∨ le y x = true)
    (htrans : ∀ x y z, le x y = true → le y z = true → le x z = true)
    (a : α) (l : List α) (h : l.Pairwise (le · · = true)) :
    (insertSorted le a l).Pairwise (le · · = true) := by
  induction l with
  | nil => simp [insertSorted]
  | cons b t ih =>
    rcases List.pairwise_cons.mp h with ⟨hb, ht⟩
    by_cases hab : le a b = true
    · simp only [insertSorted, hab, if_true]
      refine List.pairwise_cons.mpr ⟨?_, h⟩
      intro x hx
      rcases List.mem_cons.mp hx with rfl | hx
      · exact hab
      · exact htrans a b x hab (hb x hx)
    · simp only [insertSorted, hab]
      simp only [Bool.false_eq_true, if_false]
      refine List.pairwise_cons.mpr ⟨?_, ih ht⟩
      intro x hx
      have hx' := (insertSorted_perm le a t).mem_iff.mp hx
      rcases List.mem_cons.mp hx' with rfl | hmem
      · rcases htot x b with h1 | h1
        · exact absurd h1 hab
        · exact h1
      · exact hb x hmem

theorem pairwise_sortBy (le : α → α → Bool)
    (htot : ∀ x y, le x y = true ∨ le y x = true)
    (htrans : ∀ x y z, le x y = true → le y z = true → le x z = true)
    (l : List α) : (sortBy le l).Pairwise (le · · = true) := by
  induction l with
  | nil => simp [sortBy]
  | cons a t ih => exact pairwise_insertSorted le htot htrans a _ ih

/-- Two sorted lists that are permutations of each other are equal,
provided compare-equal members are equal. -/

theorem sorted_perm_eq (le : α → α → Bool) :
    ∀ (l₁ l₂ : List α), l₁.Perm l₂ →
    l₁.Pairwise (le · · = true) → l₂.Pairwise (le · · = true) →
    (∀ a ∈ l₁, ∀ b ∈ l₂, le a b = true → le b a = true → a = b) →
    l₁ = l₂
  | [], l₂, h, _, _, _ => by simpa using h.nil_eq
  | a :: t₁, [], h, _, _, _ => by
    have := h.length_eq
    simp at this
  | a :: t₁, b :: t₂, h, s₁, s₂, hanti => by
    rcases List.pairwise_cons.mp s₁ with ⟨ha, ht₁⟩
    rcases List.pairwise_cons.mp s₂ with ⟨hb, ht₂⟩
    have hab : a = b := by
      by_cases hq : a = b
      · exact hq
      · have hma : a ∈ b :: t₂ := h.mem_iff.mp (List.mem_cons_self a t₁)
        have hmb : b ∈ a :: t₁ := h.symm.mem_iff.mp (List.mem_cons_self b t₂)
        have hma' : a ∈ t₂ := by
          rcases List.mem_cons.mp hma with h2 | h2
          · exact absurd h2 hq
          · exact h2
        have hmb' : b ∈ t₁ := by
          rcases List.mem_cons.mp hmb with h2 | h2
          · exact absurd h2.symm hq
          · exact h2
        exact hanti a (List.mem_cons_self a t₁) b (List.mem_cons_self b t₂)
          (ha b hmb') (hb a hma')
    subst hab
    have ht : t₁.Perm t₂ := h.cons_inv
    have := sorted_perm_eq le t₁ t₂ ht ht₁ ht₂ (fun x hx y hy =>
      hanti x (List.mem_cons_of_mem a hx) y (List.mem_cons_of_mem a hy))
    rw [this]

/-! ### Properties of the byte comparator -/

theorem byteCompare_eq_iff :
    ∀ (a b : List Nat), byteCompare a b = Ordering.eq ↔ a = b
  | [], [] => by simp [byteCompare]
  | [], _ :: _ => by simp [byteCompare]
  | _ :: _, [] => by simp [byteCompare]
  | a :: as, b :: bs => by
    simp only [byteCompare]
    rcases Nat.lt_trichotomy a b with h | h | h
    · simp only [h, if_true]
      constructor
      · intro hq
        exact absurd hq (by simp)
      · intro hq
        injection hq with h1 _
        omega
    · subst h
      simp only [lt_irrefl, if_false, List.cons.injEq, true_and,
        byteCompare_eq_iff as bs]
    · have h1 : ¬ a < b := by omega
      simp only [h1, if_false, h, if_true]
      constructor
      · intro hq
        exact absurd hq (by simp)
      · intro hq
        injection hq with h2 _
        omega

theorem byteCompare_swap :
    ∀ (a b : List Nat), byteCompare b a = (byteCompare a b).swap
  | [], [] => rfl
  | [], _ :: _ => rfl
  | _ :: _, [] => rfl
  | a :: as, b :: bs => by
    simp only [byteCompare]
    rcases Nat.lt_trichotomy a b with h | h | h
    · have h1 : ¬ b < a := by omega
      simp [h, h1, Ordering.swap]
    · subst h
      simp [byteCompare_swap as bs]
    · have h1 : ¬ a < b := by omega
      simp [h, h1, Ordering.swap]

theorem byteCompare_lt_trans :
    ∀ (a b c : List Nat), byteCompare a b = Ordering.lt →
      byteCompare b c = Ordering.lt → byteCompare a c = Ordering.lt
  | [], [], _, h1, _ => by simp [byteCompare] at h1
  | [], _ :: _, [], _, h2 => by simp [byteCompare] at h2
  | [], _ :: _, _ :: _, _, _ => by simp [byteCompare]
  | _ :: _, [], _, h1, _ => by simp [byteCompare] at h1
  | _ :: _, _ :: _, [], _, h2 => by simp [byteCompare] at h2
  | a :: as, b :: bs, c :: cs, h1, h2 => by
    simp only [byteCompare] at h1 h2 ⊢
    rcases Nat.lt_trichotomy a b with hab | hab | hab
    · rcases Nat.lt_trichotomy b c with hbc | hbc | hbc
      · have hq : a < c := by omega
        simp [hq]
      · subst hbc
        simp [hab]
      · have hq1 : ¬ b < c := by omega
        simp [hq1, hbc] at h2
    · subst hab
      rcases Nat.lt_trichotomy a c with hac | hac | hac
      · simp [hac]
      · subst hac
        simp only [lt_irrefl, if_false] at h1 h2 ⊢
        exact byteCompare_lt_trans as bs cs h1 h2
      · have hq : ¬ a < c := by omega
        simp [hq, hac] at h2
    · have hq : ¬ a < b := by omega
      simp [hq, hab] at h1

/-! ### Properties of the input order used by sortTxInputs -/

theorem inLt_asymm {a b : TxIn} (h : inLt a b = true) : inLt b a = false := by
  simp only [inLt] at h ⊢
  rw [byteCompare_swap]
  rcases hc : byteCompare a.prevHash b.prevHash with _ | _ | _ <;>
    simp [hc, Ordering.swap] at h ⊢
  · omega

theorem inLe_total (a b : TxIn) : inLe a b = true ∨ inLe b a = true := by
  by_cases h : inLt b a = true
  · right
    simp [inLe, inLt_asymm h]
  · left
    simp only [Bool.not_eq_true] at h
    simp [inLe, h]

theorem inLe_trans {a b c : TxIn} (h1 : inLe a b = true)
    (h2 : inLe b c = true) : inLe a c = true := by
  simp only [inLe, Bool.not_eq_true'] at h1 h2 ⊢
  by_contra hq
  simp only [Bool.not_eq_false] at hq
  simp only [inLt] at h1 h2 hq
  rcases hca : byteCompare c.prevHash a.prevHash with _ | _ | _ <;>
    rw [hca] at hq
  · -- c.hash < a.hash
    rcases hcb : byteCompare c.prevHash b.prevHash with _ | _ | _ <;>
      rw [hcb] at h2
    · simp at h2
    · -- c.hash = b.hash, so b.hash < a.hash
      have hbc := (byteCompare_eq_iff _ _).mp hcb
      rw [hbc] at hca
      rw [hca] at h1
      simp at h1
    · -- b.hash < c.hash < a.hash
      have hq1 : byteCompare b.prevHash c.prevHash = Ordering.lt := by
        rw [byteCompare_swap, hcb]
        rfl
      have hq2 := byteCompare_lt_trans _ _ _ hq1 hca
      rw [hq2] at h1
      simp at h1
  · -- c.hash = a.hash and c.idx < a.idx
    simp only [decide_eq_true_eq] at hq
    have hceqa := (byteCompare_eq_iff _ _).mp hca
    rcases hcb : byteCompare c.prevHash b.prevHash with _ | _ | _ <;>
      rw [hcb] at h2
    · simp at h2
    · have hceqb := (byteCompare_eq_iff _ _).mp hcb
      have hba : byteCompare b.prevHash a.prevHash = Ordering.eq := by
        rw [← hceqb, hca]
      rw [hba] at h1
      simp only [decide_eq_false_iff_not, Nat.not_lt] at h1 h2
      omega
    · have hq1 : byteCompare b.prevHash c.prevHash = Ordering.lt := by
        rw [byteCompare_swap, hcb]
        rfl
      have hq2 : byteCompare b.prevHash a.prevHash = Ordering.lt := by
        rw [← hceqa]
        exact hq1
      rw [hq2] at h1
      simp at h1
  · simp at hq

/-- Compare-equal inputs with equal sequence and signature script are
equal. -/

theorem inLe_antisymm {a b : TxIn} (h1 : inLe a b = true)
    (h2 : inLe b a = true) (hseq : a.sequence = b.sequence)
    (hsig : a.signatureScript = b.signatureScript) : a = b := by
  simp only [inLe, Bool.not_eq_true'] at h1 h2
  simp only [inLt] at h1 h2
  rcases hc : byteCompare a.prevHash b.prevHash with _ | _ | _
  · rw [hc] at h2
    simp at h2
  · rw [hc] at h2
    rw [byteCompare_swap, hc] at h1
    simp only [Ordering.swap] at h1
    simp only [decide_eq_false_iff_not, Nat.not_lt] at h1 h2
    have hh : a.prevHash = b.prevHash := (byteCompare_eq_iff _ _).mp hc
    have hi : a.prevIndex = b.prevIndex := by omega
    cases a
    cases b
    simp_all
  · rw [byteCompare_swap, hc] at h1
    simp [Ordering.swap] at h1

/-! ### Script-length facts -/

theorem addDataPush_len32 {d : List Nat} (h : d.length = 32) :
    addDataPush d = 32 :: d := by
  simp [addDataPush, h]

/-- With 32-byte x-only serializations (as `schnorr.SerializePubKey`
guarantees), every taproot output script is exactly 34 bytes:
`OP_1 OP_DATA_32 <key>`. -/

theorem createTaprootScript_length (C : Primitives)
    (hser : ∀ pt : C.Point, (C.serXOnly pt).length = 32)
    (internalPubKey : Option C.Point) (scripts : List (List Nat)) :
    (CreateTaprootScript C internalPubKey scripts).length = 34 := by
  have h : ∀ pt : C.Point, ([81] ++ addDataPush (C.serXOnly pt)).length = 34 := by
    intro pt
    rw [addDataPush_len32 (hser pt)]
    simp [hser pt]
  unfold CreateTaprootScript
  exact h _

/-! ### Properties of the output order used by sortTxOutputs -/

theorem scriptLtAux_asymm :
    ∀ {a b : List Nat}, scriptLtAux a b = true → scriptLtAux b a = false
  | a :: as, b :: bs, h => by
    simp only [scriptLtAux] at h ⊢
    rcases Nat.lt_trichotomy a b with hab | hab | hab
    · have h1 : ¬ b < a := by omega
      simp [hab, h1]
    · subst hab
      simp only [lt_irrefl, if_false] at h ⊢
      exact scriptLtAux_asymm h
    · have h1 : ¬ a < b := by omega
      simp [h1, hab] at h

theorem scriptLt_asymm {a b : List Nat} (h : scriptLt a b = true) :
    scriptLt b a = false := by
  unfold scriptLt at h ⊢
  split at h
  · next hne =>
    simp only [decide_eq_true_eq] at h
    split
    · simp only [decide_eq_false_iff_not]
      omega
    · next heq => omega
  · next heq =>
    simp only [ne_eq, Decidable.not_not] at heq
    split
    · next hne => omega
    · exact scriptLtAux_asymm h

theorem outLt_asymm {a b : TxOut} (h : outLt a b = true) :
    outLt b a = false := by
  unfold outLt at h ⊢
  split at h
  · next hne =>
    simp only [decide_eq_true_eq] at h
    split
    · simp only [decide_eq_false_iff_not]
      omega
    · next heq => omega
  · next heq =>
    simp only [ne_eq, Decidable.not_not] at heq
    split
    · next hne => omega
    · exact scriptLt_asymm h

/-- An `outLt`-smaller output has a less-or-equal amount. -/

theorem outLt_value_le {a b : TxOut} (h : outLt a b = true) :
    a.value ≤ b.value := by
  unfold outLt at h
  split at h
  · simp only [decide_eq_true_eq] at h
    omega
  · next heq =>
    simp only [ne_eq, Decidable.not_not] at heq
    omega

/-- An `outLe`-smaller output has a less-or-equal amount. -/

theorem outLe_value_le {a b : TxOut} (h : outLe a b = true) :
    a.value ≤ b.value := by
  simp only [outLe, Bool.not_eq_true'] at h
  unfold outLt at h
  split at h
  · next hne =>
    simp only [decide_eq_false_iff_not] at h
    omega
  · next heq =>
    simp only [ne_eq, Decidable.not_not] at heq
    omega

theorem specLeafHash_eq (C : Primitives) (script : List Nat) :
    specLeafHash C script = tapLeafHash C script := by
  simp [specLeafHash, tapLeafHash]

theorem specBranchHash_eq (C : Primitives) (l r : List Nat) :
    specBranchHash C l r = tapBranchHash C l r := by
  by_cases h : byteCompare l r == Ordering.gt <;>
    simp [specBranchHash, specSortedPair, tapBranchHash, h]

theorem specCombineLevel_eq (C : Primitives) (l : List (List Nat)) :
    specCombineLevel C l = pairLevel C l := by
  match l with
  | [] => rfl
  | [x] => rfl
  | x :: y :: rest =>
    simp only [specCombineLevel, pairLevel, specBranchHash_eq,
      specCombineLevel_eq C rest]

theorem specRootLoopAux_eq (C : Primitives) :
    ∀ (fuel : Nat) (l : List (List Nat)),
      specRootLoopAux C fuel l = merkleLoopAux C fuel l
  | fuel, [] => by cases fuel <;> rfl
  | fuel, [_] => by cases fuel <;> rfl
  | 0, _ :: _ :: _ => rfl
  | fuel + 1, x :: y :: rest => by
    rw [specRootLoopAux, merkleLoopAux, specCombineLevel_eq]
    exact specRootLoopAux_eq C fuel (pairLevel C (x :: y :: rest))

theorem specRootLoop_eq (C : Primitives) (l : List (List Nat)) :
    specRootLoop C l = merkleLoop C l :=
  specRootLoopAux_eq C l.length l

/-! ### Evaluation lemmas for the boarding builder -/

/-- On a non-empty key list the aggregation succeeds with the reference
aggregate. -/

theorem musig2_ok (C : Primitives) (keys : List C.Point) (h : keys ≠ []) :
    MuSig2AggregateKeys C keys = .ok (specAggregateKey C keys) := by
  unfold MuSig2AggregateKeys specAggregateKey
  rw [if_neg (by simpa using h)]
  simp [List.foldl_map]

/-- Estimated virtual size of the one-input, one-output boarding skeleton:
111 vbytes whenever the output script is 34 bytes. -/

theorem estimateTxSize_oneOut (i : TxIn) (hsig : i.signatureScript = [])
    (v : Int) (s : List Nat) (hs : s.length = 34) :
    estimateTxSize
      { version := TxVersion, txIn := [i],
        txOut := [{ value := v, pkScript := s }], lockTime := 0 } 1 0
      = 111 := by
  simp [estimateTxSize, serializeSize, txInSerSize, txOutSerSize,
    varIntSize, hsig, hs]

/-- Estimated virtual size of the one-input, two-output boarding skeleton
(34-byte deposit script, arbitrary change script). -/

theorem estimateTxSize_twoOut (i : TxIn) (hsig : i.signatureScript = [])
    (v w : Int) (s cs : List Nat) (hs : s.length = 34) :
    estimateTxSize
      { version := TxVersion, txIn := [i],
        txOut := [{ value := v, pkScript := s },
                  { value := w, pkScript := cs }], lockTime := 0 } 1 0
      = (((102 + varIntSize cs.length + cs.length) * 4 + 69 : Nat) / 4 : Nat)
      := by
  simp [estimateTxSize, serializeSize, txInSerSize, txOutSerSize,
    varIntSize, hsig, hs]
  omega

/-- The boarding body with the aggregation step resolved: the exact
decision structure of the Go code after `MuSig2AggregateKeys` returns. -/

theorem buildBoardingTxBody_eq (C : Primitives) (p : BoardingTxParams C)
    (fu : UTXO) (uk opk : C.Point) :
    buildBoardingTxBody C p fu uk opk =
      (let ts := boardingOutputScript C uk opk p.timeoutBlocks
       let txIn1 : TxIn :=
         { prevHash := fu.txHash, prevIndex := fu.outputIndex,
           signatureScript := [], sequence := SequenceBoardingTx }
       let tx1 : MsgTx :=
         { version := TxVersion, txIn := [txIn1],
           txOut := [{ value := p.amount, pkScript := ts }], lockTime := 0 }
       let fee := estimateTxSize tx1 1 0 * p.feeRate
       let change := fu.amount - p.amount - fee
       if change > DustLimit ∧ p.changeAddress ≠ "" then
         match C.decodeAddrScript p.changeAddress with
         | none => .error "invalid change address"
         | some changeScript =>
           let tx2 : MsgTx :=
             { tx1 with txOut := tx1.txOut ++
                 [{ value := change, pkScript := changeScript }] }
           let fee2 := estimateTxSize tx2 1 0 * p.feeRate
           let change2 := fu.amount - p.amount - fee2
           if change2 > DustLimit then
             .ok (sortTxOutputs
               { tx2 with txOut := [{ value := p.amount, pkScript := ts },
                   { value := change2, pkScript := changeScript }] })
           else
             .ok (sortTxOutputs
               { tx2 with txOut := [{ value := p.amount, pkScript := ts }] })
       else .ok (sortTxOutputs tx1)) := by
  unfold buildBoardingTxBody boardingOutputScript
  simp only [musig2_ok C [uk, opk] (fun h => List.noConfusion h)]
  split
  · split
    · rfl
    · split <;> rfl
  · rfl

/-! ### Claims -/

/-- C1: for every non-empty list of public keys, `MuSig2AggregateKeys`
returns exactly the reference aggregate of the spec: keys sorted ascending
by 32-byte x-only serialization, `L` the hash of their concatenation, each
key scaled by `Hash(L || serialize(P))` mod the curve order, and the
affine sum returned. -/

theorem claim_C1 (C : Primitives) (keys : List C.Point) (h : keys ≠ []) :
    MuSig2AggregateKeys C keys = .ok (specAggregateKey C keys) :=
  musig2_ok C keys h

theorem claim_C1_witness :
    [toyPt 3, toyPt 2] ≠ ([] : List toyPrims.Point) ∧
      MuSig2AggregateKeys toyPrims [toyPt 3, toyPt 2] =
        .ok (specAggregateKey toyPrims [toyPt 3, toyPt 2]) :=
  ⟨fun hq => List.noConfusion hq,
    claim_C1 toyPrims [toyPt 3, toyPt 2] (fun hq => List.noConfusion hq)⟩

/-- C2: for every non-empty list of leaf scripts the taproot merkle root
follows exactly the spec's algorithm (tagged leaf hashes, byte-order-sorted
branch pairs, odd node promoted unchanged), and in particular for three
leaves the third leaf hash is paired with the branch of the first two at
the second level. -/

theorem claim_C2 (C : Primitives) :
    (∀ scripts : List (List Nat), scripts ≠ [] →
      buildTapscriptMerkleRoot C scripts = specMerkleRoot C scripts) ∧
    (∀ a b c : List Nat,
      buildTapscriptMerkleRoot C [a, b, c] =
        tapBranchHash C
          (tapBranchHash C (tapLeafHash C a) (tapLeafHash C b))
          (tapLeafHash C c)) := by
  constructor
  · intro scripts hne
    unfold buildTapscriptMerkleRoot specMerkleRoot
    rw [if_neg (by simpa using hne), specRootLoop_eq,
      show specLeafHash C = tapLeafHash C from funext (specLeafHash_eq C)]
  · intro a b c
    simp [buildTapscriptMerkleRoot, merkleLoop, merkleLoopAux, pairLevel]

theorem claim_C2_witness :
    [[1], [2], [3]] ≠ ([] : List (List Nat)) ∧
      buildTapscriptMerkleRoot toyPrims [[1], [2], [3]] =
        specMerkleRoot toyPrims [[1], [2], [3]] :=
  ⟨fun hq => List.noConfusion hq,
    (claim_C2 toyPrims).1 [[1], [2], [3]] (fun hq => List.noConfusion hq)⟩

/-- C3 (code bug): contrary to the claim (and to the repository's own
`TestCommitmentTxValidation`, which expects the errors "batch amount below
dust limit" and "boarding output amount must be positive"),
`BuildCommitmentTx` has no dust-floor check on the batch amount and no
positivity check on the input UTXOs: it succeeds both on a batch amount of
545 < `DustLimit` and on a boarding-output UTXO of amount -1. -/

theorem claim_C3 (C : Primitives) (k : C.Point)
    (hser : ∀ pt : C.Point, (C.serXOnly pt).length = 32) :
    ((0:Int) < 545 ∧ (545:Int) < DustLimit ∧
      (BuildCommitmentTx C (dustBatchParams C k)).fst.isOk = true) ∧
    (((negBoardingParams C k).boardingOutputs.map UTXO.amount = [-1]) ∧
      (BuildCommitmentTx C (negBoardingParams C k)).fst.isOk = true) := by
  refine ⟨⟨by norm_num, by norm_num [DustLimit], ?_⟩, ⟨rfl, ?_⟩⟩ <;>
  · unfold BuildCommitmentTx
    simp only [dustBatchParams, negBoardingParams, List.length_cons,
      List.length_nil]
    norm_num [buildCommitmentTxBody, commitmentInputs, commitmentTotalInput,
      sortBy, insertSorted, inLe, inLt, byteCompare, testHash1,
      estimateTxSize, serializeSize, txInSerSize, txOutSerSize, varIntSize,
      createTaprootScript_length C hser, Except.isOk, Except.toBool, DustLimit, MinFeeRate]

theorem claim_C3_witness :
    (∀ pt : toyPrims.Point, (toyPrims.serXOnly pt).length = 32) ∧
      (BuildCommitmentTx toyPrims (dustBatchParams toyPrims (toyPt 5))).fst.isOk
        = true :=
  ⟨toyPrims_ser_len, (claim_C3 toyPrims (toyPt 5) toyPrims_ser_len).1.2.2⟩

/-- C4 (code bug): contrary to the claim (and to the repository's own
`TestBoardingTxValidation`, which expects the errors "amount below dust
limit" and "funding UTXO amount must be positive"), `BuildBoardingTx` has
no dust-floor check on the deposit amount and no positivity check on the
funding UTXO amount: it succeeds both on a deposit of 545 < `DustLimit`
and on a funding UTXO of amount 0. -/

theorem claim_C4 (C : Primitives) (uk opk : C.Point)
    (hser : ∀ pt : C.Point, (C.serXOnly pt).length = 32) :
    ((0:Int) < 545 ∧ (545:Int) < DustLimit ∧
      (BuildBoardingTx C (dustAmountBoardingParams C uk opk)).fst.isOk
        = true) ∧
    (((zeroFundingBoardingParams C uk opk).fundingUTXO.map UTXO.amount
        = some 0) ∧
      (BuildBoardingTx C (zeroFundingBoardingParams C uk opk)).fst.isOk
        = true) := by
  have hts : (boardingOutputScript C uk opk 144).length = 34 :=
    createTaprootScript_length C hser none _
  have hfee : ∀ v : Int,
      estimateTxSize
        { version := TxVersion,
          txIn := [{ prevHash := testHash1, prevIndex := 0,
                     signatureScript := [], sequence := SequenceBoardingTx }],
          txOut := [{ value := v,
                      pkScript := boardingOutputScript C uk opk 144 }],
          lockTime := 0 } 1 0 = 111 :=
    fun v => estimateTxSize_oneOut _ rfl v _ hts
  refine ⟨⟨by norm_num, by norm_num [DustLimit], ?_⟩, ⟨rfl, ?_⟩⟩ <;>
  · simp only [BuildBoardingTx, dustAmountBoardingParams,
      zeroFundingBoardingParams, MinFeeRate, DustLimit]
    norm_num
    simp only [buildBoardingTxBody_eq, hfee]
    rw [if_neg (by norm_num [DustLimit])]
    rfl

/-- On success the commitment body's transaction has exactly the batch
output (position 0) and the connector output (position 1). -/

theorem buildCommitmentTxBody_txOut (C : Primitives) (p : CommitmentTxParams C)
    (opk : C.Point) (ca : Int) (tx : MsgTx)
    (h : buildCommitmentTxBody C p opk ca = .ok tx) :
    ∃ s0 s1, tx.txOut =
      [{ value := p.batchAmount, pkScript := s0 },
       { value := ca, pkScript := s1 }] := by
  simp only [buildCommitmentTxBody] at h
  by_cases hu : 0 < p.userPubKeys.length
  · rw [if_pos hu, musig2_ok C p.userPubKeys
      (by intro hq; rw [hq] at hu; simp at hu)] at h
    split at h
    · simp at h
    split at h
    · simp at h
    rw [Except.ok.injEq] at h
    subst h
    exact ⟨_, _, rfl⟩
  · rw [if_neg hu] at h
    split at h
    · simp at h
    split at h
    · simp at h
    rw [Except.ok.injEq] at h
    subst h
    exact ⟨_, _, rfl⟩

/-- Inversion of a successful `BuildCommitmentTx` call: the validations
passed, the returned params are the fee-clamped ones, and the body
succeeded with the dust-floored connector amount. -/

theorem BuildCommitmentTx_ok_inv (C : Primitives) (p : CommitmentTxParams C)
    (tx : MsgTx) (q : CommitmentTxParams C)
    (h : BuildCommitmentTx C p = (.ok tx, q)) :
    ∃ opk, p.operatorPubKey = some opk ∧
      q.batchAmount = p.batchAmount ∧
      buildCommitmentTxBody C q opk
        (if p.connectorAmount < DustLimit then DustLimit
         else p.connectorAmount) = .ok tx := by
  simp only [BuildCommitmentTx] at h
  split at h
  · simp at h
  split at h
  · simp at h
  next opk heq =>
  split at h
  · simp at h
  rw [Prod.mk.injEq] at h
  obtain ⟨h1, h2⟩ := h
  subst h2
  refine ⟨opk, heq, ?_, h1⟩
  split <;> rfl

theorem claim_C4_witness :
    (∀ pt : toyPrims.Point, (toyPrims.serXOnly pt).length = 32) ∧
      (BuildBoardingTx toyPrims
        (dustAmountBoardingParams toyPrims (toyPt 3) (toyPt 5))).fst.isOk
        = true :=
  ⟨toyPrims_ser_len,
    (claim_C4 toyPrims (toyPt 3) (toyPt 5) toyPrims_ser_len).1.2.2⟩

/-- C8: for every valid `ForfeitTxParams` (both UTXOs and the operator key
present, both amounts positive), the built transaction has exactly the two
inputs in fixed order (VTXO first, connector anchor second) and exactly
one output worth the summed inputs minus the two-input fee estimate; it
fails with an error exactly when that output amount would be zero or
negative. -/

theorem claim_C8 (C : Primitives) (p : ForfeitTxParams C) (vt an : UTXO)
    (opk : C.Point) (hv : p.vtxo = some vt) (ha : p.connectorAnchor = some an)
    (hk : p.operatorPubKey = some opk) (hvp : 0 < vt.amount)
    (hap : 0 < an.amount) :
    ((0 < vt.amount + an.amount - forfeitFee C p vt an) →
      ∃ s, (BuildForfeitTx C p).fst =
        .ok { version := TxVersion, txIn := forfeitIns vt an,
              txOut := [{ value := vt.amount + an.amount - forfeitFee C p vt an,
                          pkScript := s }],
              lockTime := 0 }) ∧
    ((vt.amount + an.amount - forfeitFee C p vt an ≤ 0) →
      (BuildForfeitTx C p).fst =
        .error "insufficient input amount to cover fees") := by
  simp only [BuildForfeitTx, hv, ha, hk]
  rw [if_neg (by omega), if_neg (by omega)]
  by_cases hcl : p.feeRate < MinFeeRate
  · simp only [buildForfeitTxBody, forfeitFee, forfeitIns, if_pos hcl]
    constructor <;> intro h
    · rw [if_neg (by omega)]
      exact ⟨_, rfl⟩
    · rw [if_pos (by omega)]
  · simp only [buildForfeitTxBody, forfeitFee, forfeitIns, if_neg hcl]
    constructor <;> intro h
    · rw [if_neg (by omega)]
      exact ⟨_, rfl⟩
    · rw [if_pos (by omega)]

/-- C6: every transaction `BuildCommitmentTx` returns has exactly two
outputs in fixed positions, never re-sorted by the output canonicalizer:
output 0 carries exactly the batch amount and output 1 (the connector)
carries the connector amount floored to the dust limit. -/

theorem claim_C6 (C : Primitives) (p : CommitmentTxParams C) (tx : MsgTx)
    (q : CommitmentTxParams C)
    (h : BuildCommitmentTx C p = (.ok tx, q)) :
    ∃ s0 s1, tx.txOut =
      [{ value := p.batchAmount, pkScript := s0 },
       { value := if p.connectorAmount < DustLimit then DustLimit
                  else p.connectorAmount, pkScript := s1 }] := by
  obtain ⟨opk, _, hba, hbody⟩ := BuildCommitmentTx_ok_inv C p tx q h
  obtain ⟨s0, s1, hout⟩ := buildCommitmentTxBody_txOut C q opk _ tx hbody
  exact ⟨s0, s1, by rw [hout, hba]⟩

theorem claim_C6_witness :
    BuildCommitmentTx toyPrims c6Params = (Except.ok c6Tx, c6Pair.snd) ∧
      ∃ s0 s1, c6Tx.txOut =
        [{ value := 400000, pkScript := s0 },
         { value := 1000, pkScript := s1 }] := by
  have h : BuildCommitmentTx toyPrims c6Params = (Except.ok c6Tx, c6Pair.snd) :=
    rfl
  refine ⟨h, ?_⟩
  have h2 := claim_C6 toyPrims c6Params c6Tx c6Pair.snd h
  simpa [c6Params, DustLimit] using h2

theorem claim_C8_witness :
    ((0 : Int) < 50000 + 1000 -
      forfeitFee toyPrims c8Params
        { txHash := testHash1, outputIndex := 0, amount := 50000,
          scriptPubKey := [] }
        { txHash := testHash1, outputIndex := 1, amount := 1000,
          scriptPubKey := [] }) ∧
    ∃ s, (BuildForfeitTx toyPrims c8Params).fst =
      .ok { version := TxVersion,
            txIn := forfeitIns
              { txHash := testHash1, outputIndex := 0, amount := 50000,
                scriptPubKey := [] }
              { txHash := testHash1, outputIndex := 1, amount := 1000,
                scriptPubKey := [] },
            txOut := [{ value := 50875, pkScript := s }],
            lockTime := 0 } := by
  have hfee : forfeitFee toyPrims c8Params
      { txHash := testHash1, outputIndex := 0, amount := 50000,
        scriptPubKey := [] }
      { txHash := testHash1, outputIndex := 1, amount := 1000,
        scriptPubKey := [] } = 125 := by decide
  have h := (claim_C8 toyPrims c8Params
      { txHash := testHash1, outputIndex := 0, amount := 50000,
        scriptPubKey := [] }
      { txHash := testHash1, outputIndex := 1, amount := 1000,
        scriptPubKey := [] }
      (toyPt 5) rfl rfl rfl (by norm_num) (by norm_num)).1
    (by rw [hfee]; norm_num)
  rw [hfee] at h
  exact ⟨by rw [hfee]; norm_num, by simpa using h⟩

/-- C9 counterexample: the claim says every field of the params value,
including `FeeRate`, is unchanged after a builder call.  But the builders
assign the clamped fee rate back into the params (Go passes `params` by
pointer): calling `BuildForfeitTx` with `FeeRate = 0` leaves the params
with `FeeRate = 1`. -/

theorem claim_C9_counterexample :
    ({ c8Params with feeRate := 0 } : ForfeitTxParams toyPrims).feeRate = 0 ∧
      (BuildForfeitTx toyPrims { c8Params with feeRate := 0 }).snd.feeRate
        = 1 := by
  constructor
  · rfl
  · decide

/-- C9 (amended): after any builder call the params value is unchanged
except possibly for `FeeRate`, which the builder clamps in place up to
`MinFeeRate`: the params after the call are either exactly the params
passed in or the params with `FeeRate` replaced by `MinFeeRate`. -/

theorem claim_C9 (C : Primitives) (pB : BoardingTxParams C)
    (pC : CommitmentTxParams C) (pF : ForfeitTxParams C) :
    ((BuildBoardingTx C pB).snd = pB ∨
      (BuildBoardingTx C pB).snd = { pB with feeRate := MinFeeRate }) ∧
    ((BuildCommitmentTx C pC).snd = pC ∨
      (BuildCommitmentTx C pC).snd = { pC with feeRate := MinFeeRate }) ∧
    ((BuildForfeitTx C pF).snd = pF ∨
      (BuildForfeitTx C pF).snd = { pF with feeRate := MinFeeRate }) := by
  refine ⟨?_, ?_, ?_⟩
  · unfold BuildBoardingTx
    repeat' split
    all_goals simp
  · unfold BuildCommitmentTx
    repeat' split
    all_goals simp
  · unfold BuildForfeitTx
    repeat' split
    all_goals simp

theorem claim_C9_witness :
    (BuildForfeitTx toyPrims c8Params).snd = c8Params ∨
      (BuildForfeitTx toyPrims c8Params).snd =
        { c8Params with feeRate := MinFeeRate } :=
  (claim_C9 toyPrims
    { fundingUTXO := none, amount := 0, userPubKey := none,
      operatorPubKey := none, timeoutBlocks := 0, changeAddress := "",
      feeRate := 0 }
    { operatorUTXOs := [], boardingOutputs := [], batchAmount := 0,
      connectorAmount := 0, operatorPubKey := none, userPubKeys := [],
      batchExpiry := 0, feeRate := 0 }
    c8Params).2.2

/-- C10: `BuildBoardingTx` has no insufficient-funds check: on concrete
parameters with an empty change address that pass every validation, whose
funding UTXO holds 100 satoshis while the deposit is 90000 plus a 111-sat
fee estimate, the builder succeeds and the single output value (90000)
exceeds the funding input amount (100). -/

theorem claim_C10 :
    BuildBoardingTx toyPrims c10Params = (Except.ok c10Tx, c10Pair.snd) ∧
      c10Tx.txOut.map TxOut.value = [90000] ∧
      (100 : Int) < 90000 + estimateTxSize c10Tx 1 0 * c10Params.feeRate ∧
      (100 : Int) < 90000 := by
  refine ⟨rfl, by decide, by decide, by norm_num⟩

theorem inLe_elim {a b : TxIn} (h : inLe a b = true) :
    byteCompare a.prevHash b.prevHash = Ordering.lt ∨
      (a.prevHash = b.prevHash ∧ a.prevIndex ≤ b.prevIndex) := by
  simp only [inLe, Bool.not_eq_true'] at h
  simp only [inLt] at h
  rcases hc : byteCompare b.prevHash a.prevHash with _ | _ | _ <;> rw [hc] at h
  · simp at h
  · right
    have hh := (byteCompare_eq_iff _ _).mp hc
    simp only [decide_eq_false_iff_not, Nat.not_lt] at h
    exact ⟨hh.symm, h⟩
  · left
    rw [byteCompare_swap, hc]
    rfl

theorem sortTxInputs_perm_eq (l₁ l₂ : List TxIn) (hp : l₁.Perm l₂)
    (hc : ∀ a ∈ l₁, a.sequence = SequenceCommitmentTx ∧
      a.signatureScript = []) :
    sortBy inLe l₁ = sortBy inLe l₂ := by
  apply sorted_perm_eq inLe
  · exact (sortBy_perm inLe l₁).trans (hp.trans (sortBy_perm inLe l₂).symm)
  · exact pairwise_sortBy inLe inLe_total (fun x y z => inLe_trans) l₁
  · exact pairwise_sortBy inLe inLe_total (fun x y z => inLe_trans) l₂
  · intro a ha b hb h1 h2
    have ha' := (sortBy_perm inLe l₁).mem_iff.mp ha
    have hb' := hp.symm.mem_iff.mp ((sortBy_perm inLe l₂).mem_iff.mp hb)
    exact inLe_antisymm h1 h2
      ((hc a ha').1.trans (hc b hb').1.symm)
      ((hc a ha').2.trans (hc b hb').2.symm)

theorem commitmentInputs_perm (C : Primitives) (p p' : CommitmentTxParams C)
    (hop : p'.operatorUTXOs.Perm p.operatorUTXOs)
    (hb : p'.boardingOutputs.Perm p.boardingOutputs) :
    commitmentInputs C p' = commitmentInputs C p := by
  unfold commitmentInputs
  apply sortTxInputs_perm_eq
  · exact (hop.append hb).map _
  · intro a ha
    simp only [List.mem_map] at ha
    obtain ⟨u, _, rfl⟩ := ha
    exact ⟨rfl, rfl⟩

theorem commitmentTotalInput_perm (C : Primitives)
    (p p' : CommitmentTxParams C)
    (hop : p'.operatorUTXOs.Perm p.operatorUTXOs)
    (hb : p'.boardingOutputs.Perm p.boardingOutputs) :
    commitmentTotalInput C p' = commitmentTotalInput C p := by
  unfold commitmentTotalInput
  rw [← List.sum_eq_foldl, ← List.sum_eq_foldl]
  exact ((hop.append hb).map UTXO.amount).sum_eq

theorem buildCommitmentTxBody_congr (C : Primitives)
    (a b : CommitmentTxParams C) (opk : C.Point) (ca : Int)
    (h1 : commitmentInputs C a = commitmentInputs C b)
    (h2 : commitmentTotalInput C a = commitmentTotalInput C b)
    (h3 : a.userPubKeys = b.userPubKeys)
    (h4 : a.batchExpiry = b.batchExpiry)
    (h5 : a.batchAmount = b.batchAmount)
    (h6 : a.feeRate = b.feeRate) :
    buildCommitmentTxBody C a opk ca = buildCommitmentTxBody C b opk ca := by
  simp only [buildCommitmentTxBody, h1, h2, h3, h4, h5, h6]

theorem BuildCommitmentTx_fst_congr (C : Primitives)
    (p' p : CommitmentTxParams C)
    (hop : p'.operatorUTXOs.Perm p.operatorUTXOs)
    (hb : p'.boardingOutputs.Perm p.boardingOutputs)
    (h3 : p'.batchAmount = p.batchAmount)
    (h4 : p'.connectorAmount = p.connectorAmount)
    (h5 : p'.operatorPubKey = p.operatorPubKey)
    (h6 : p'.userPubKeys = p.userPubKeys)
    (h7 : p'.batchExpiry = p.batchExpiry)
    (h8 : p'.feeRate = p.feeRate) :
    (BuildCommitmentTx C p').fst = (BuildCommitmentTx C p).fst := by
  unfold BuildCommitmentTx
  have hlen : p'.operatorUTXOs.length = p.operatorUTXOs.length :=
    hop.length_eq
  by_cases h0 : p.operatorUTXOs.length = 0
  · rw [if_pos h0, if_pos (by omega)]
  · rw [if_neg h0, if_neg (by omega), h5]
    cases hk : p.operatorPubKey with
    | none => rfl
    | some opk =>
      simp only
      rw [h3, h4, h8]
      by_cases hba : p.batchAmount ≤ 0
      · rw [if_pos hba, if_pos hba]
      · rw [if_neg hba, if_neg hba]
        simp only
        by_cases hcl : p.feeRate < MinFeeRate
        · rw [if_pos hcl, if_pos hcl]
          apply buildCommitmentTxBody_congr
          · exact commitmentInputs_perm C _ _ hop hb
          · exact commitmentTotalInput_perm C _ _ hop hb
          · exact h6
          · exact h7
          · rfl
          · rfl
        · rw [if_neg hcl, if_neg hcl]
          apply buildCommitmentTxBody_congr
          · exact commitmentInputs_perm C _ _ hop hb
          · exact commitmentTotalInput_perm C _ _ hop hb
          · exact h6
          · exact h7
          · exact h3
          · exact h8

/-- On success the commitment body's transaction carries exactly the
canonically sorted inputs. -/

theorem buildCommitmentTxBody_txIn (C : Primitives) (p : CommitmentTxParams C)
    (opk : C.Point) (ca : Int) (tx : MsgTx)
    (h : buildCommitmentTxBody C p opk ca = .ok tx) :
    tx.txIn = commitmentInputs C p := by
  simp only [buildCommitmentTxBody] at h
  by_cases hu : 0 < p.userPubKeys.length
  · rw [if_pos hu, musig2_ok C p.userPubKeys
      (by intro hq; rw [hq] at hu; simp at hu)] at h
    split at h
    · simp at h
    split at h
    · simp at h
    rw [Except.ok.injEq] at h
    subst h
    rfl
  · rw [if_neg hu] at h
    split at h
    · simp at h
    split at h
    · simp at h
    rw [Except.ok.injEq] at h
    subst h
    rfl

/-- C7: permuting the operator UTXOs and the boarding outputs never
changes the result of `BuildCommitmentTx`, and on success the inputs of
the returned transaction are sorted by previous-transaction-id bytes with
ties broken by previous-output-index ascending. -/

theorem claim_C7 (C : Primitives) (p : CommitmentTxParams C)
    (ops boards : List UTXO)
    (hop : ops.Perm p.operatorUTXOs) (hb : boards.Perm p.boardingOutputs) :
    (BuildCommitmentTx C
        { p with operatorUTXOs := ops, boardingOutputs := boards }).fst
      = (BuildCommitmentTx C p).fst ∧
    (∀ tx q, BuildCommitmentTx C p = (.ok tx, q) →
      tx.txIn.Pairwise (fun a b =>
        byteCompare a.prevHash b.prevHash = Ordering.lt ∨
          (a.prevHash = b.prevHash ∧ a.prevIndex ≤ b.prevIndex))) := by
  constructor
  · exact BuildCommitmentTx_fst_congr C _ p hop hb rfl rfl rfl rfl rfl rfl
  · intro tx q h
    obtain ⟨opk, _, _, hbody⟩ := BuildCommitmentTx_ok_inv C p tx q h
    have hin := buildCommitmentTxBody_txIn C q opk _ tx hbody
    rw [hin]
    unfold commitmentInputs
    have hs := pairwise_sortBy inLe inLe_total (fun x y z => inLe_trans)
      ((q.operatorUTXOs ++ q.boardingOutputs).map fun u =>
        { prevHash := u.txHash, prevIndex := u.outputIndex,
          signatureScript := [], sequence := SequenceCommitmentTx })
    exact hs.imp (fun hle => inLe_elim hle)

theorem claim_C7_witness :
    ([{ txHash := testHash1, outputIndex := 1, amount := 200000,
        scriptPubKey := [] },
      { txHash := testHash1, outputIndex := 0, amount := 300000,
        scriptPubKey := [] }] : List UTXO).Perm c7Params.operatorUTXOs ∧
      (BuildCommitmentTx toyPrims
          { c7Params with
            operatorUTXOs :=
              [{ txHash := testHash1, outputIndex := 1, amount := 200000,
                 scriptPubKey := [] },
               { txHash := testHash1, outputIndex := 0, amount := 300000,
                 scriptPubKey := [] }],
            boardingOutputs := [] }).fst
        = (BuildCommitmentTx toyPrims c7Params).fst := by
  have hperm :
      ([{ txHash := testHash1, outputIndex := 1, amount := 200000,
          scriptPubKey := [] },
        { txHash := testHash1, outputIndex := 0, amount := 300000,
          scriptPubKey := [] }] : List UTXO).Perm c7Params.operatorUTXOs :=
    List.Perm.swap _ _ _
  exact ⟨hperm,
    (claim_C7 toyPrims c7Params _ [] hperm (List.Perm.refl _)).1⟩

theorem varIntSize_pos (n : Nat) : 1 ≤ varIntSize n := by
  unfold varIntSize
  repeat' split
  all_goals omega

theorem sortBy_pair (le : α → α → Bool) (x y : α) :
    sortBy le [x, y] = if le x y then [x, y] else [y, x] := by
  simp [sortBy, insertSorted]

theorem outLe_not_value_le {a b : TxOut} (h : ¬ outLe a b = true) :
    b.value ≤ a.value := by
  have h2 : outLt b a = true := by
    simp only [outLe, Bool.not_eq_true, Bool.not_eq_false'] at h
    exact h
  exact outLt_value_le h2

/-- C5: for every valid boarding-parameter value with a change address
supplied (and decodable): when funding minus amount minus the re-estimated
two-output fee exceeds the dust floor, the result has exactly two outputs
sorted by ascending amount summing to funding minus that fee; when the
recomputed change is at or below the dust floor the change output is
dropped and the single output carries exactly the deposit amount.  The
two-output fee is expressed on a skeleton transaction with a 34-byte
placeholder deposit script, since `estimateTxSize` depends on output
scripts only through their lengths. -/

theorem claim_C5 (C : Primitives) (p : BoardingTxParams C) (fu : UTXO)
    (uk opk : C.Point) (cs : List Nat)
    (hser : ∀ pt : C.Point, (C.serXOnly pt).length = 32)
    (hfu : p.fundingUTXO = some fu) (huk : p.userPubKey = some uk)
    (hok : p.operatorPubKey = some opk) (hamt : 0 < p.amount)
    (hfr : MinFeeRate ≤ p.feeRate)
    (haddr : p.changeAddress ≠ "")
    (hdec : C.decodeAddrScript p.changeAddress = some cs) :
    let fee2 := estimateTxSize
      { version := TxVersion,
        txIn := [{ prevHash := fu.txHash, prevIndex := fu.outputIndex,
                   signatureScript := [], sequence := SequenceBoardingTx }],
        txOut := [{ value := p.amount, pkScript := List.replicate 34 0 },
                  { value := 0, pkScript := cs }],
        lockTime := 0 } 1 0 * p.feeRate
    (DustLimit < fu.amount - p.amount - fee2 →
      ∃ tx q, BuildBoardingTx C p = (.ok tx, q) ∧
        tx.txOut.length = 2 ∧
        tx.txOut.Pairwise (fun a b => a.value ≤ b.value) ∧
        (tx.txOut.map TxOut.value).sum = fu.amount - fee2) ∧
    (fu.amount - p.amount - fee2 ≤ DustLimit →
      ∃ tx q, BuildBoardingTx C p = (.ok tx, q) ∧
        tx.txOut.map TxOut.value = [p.amount]) := by
  intro fee2
  -- abbreviations
  set F : Int :=
    ((((102 + varIntSize cs.length + cs.length) * 4 + 69 : Nat) / 4 : Nat) : Int)
    with hF
  have hts : (boardingOutputScript C uk opk p.timeoutBlocks).length = 34 :=
    createTaprootScript_length C hser none _
  have hfee2 : fee2 = F * p.feeRate := by
    have := estimateTxSize_twoOut
      { prevHash := fu.txHash, prevIndex := fu.outputIndex,
        signatureScript := [], sequence := SequenceBoardingTx }
      rfl p.amount 0 (List.replicate 34 0) cs (by simp)
    simp only [fee2, this, hF]
  have hFge : (111 : Int) ≤ F := by
    have h1 := varIntSize_pos cs.length
    have : (120 : Nat) ≤ ((102 + varIntSize cs.length + cs.length) * 4 + 69) / 4 := by
      omega
    rw [hF]
    exact_mod_cast le_trans (by norm_num) this
  have hfrpos : (0 : Int) ≤ p.feeRate := le_trans (by norm_num [MinFeeRate]) hfr
  have hf12 : 111 * p.feeRate ≤ F * p.feeRate :=
    mul_le_mul_of_nonneg_right hFge hfrpos
  -- reduce the builder
  have hmain : BuildBoardingTx C p =
      (buildBoardingTxBody C p fu uk opk, p) := by
    simp only [BuildBoardingTx, hfu, huk, hok]
    rw [if_neg (by omega), if_neg (by omega)]
  rw [hmain, buildBoardingTxBody_eq]
  simp only
  rw [estimateTxSize_oneOut _ rfl _ _ hts]
  constructor
  · -- two-output case
    intro hcase
    rw [hfee2] at hcase
    have hchange1 : DustLimit < fu.amount - p.amount - 111 * p.feeRate := by
      omega
    rw [if_pos ⟨hchange1, haddr⟩, hdec]
    simp only [List.singleton_append]
    rw [estimateTxSize_twoOut _ rfl _ _ _ _ hts]
    rw [if_pos (by rw [← hF]; omega)]
    refine ⟨_, _, rfl, ?_, ?_, ?_⟩
    · simp only [sortTxOutputs, sortBy_pair]
      split <;> rfl
    · simp only [sortTxOutputs, sortBy_pair]
      split
      · next hle =>
        exact List.Pairwise.cons (by
          intro b hbmem
          rcases List.mem_singleton.mp hbmem with rfl
          exact outLe_value_le hle) (List.pairwise_singleton _ _)
      · next hle =>
        exact List.Pairwise.cons (by
          intro b hbmem
          rcases List.mem_singleton.mp hbmem with rfl
          exact outLe_not_value_le hle) (List.pairwise_singleton _ _)
    · simp only [sortTxOutputs, sortBy_pair]
      rw [hfee2, hF]
      split <;> simp <;> ring
  · -- one-output case
    intro hcase
    rw [hfee2] at hcase
    by_cases hc1 : DustLimit < fu.amount - p.amount - 111 * p.feeRate ∧
        p.changeAddress ≠ ""
    · rw [if_pos hc1, hdec]
      simp only [List.singleton_append]
      rw [estimateTxSize_twoOut _ rfl _ _ _ _ hts]
      rw [if_neg (by rw [← hF]; omega)]
      exact ⟨_, _, rfl, rfl⟩
    · rw [if_neg hc1]
      exact ⟨_, _, rfl, rfl⟩

theorem claim_C5_witness :
    ∃ tx q, BuildBoardingTx toyPrims c5Params = (Except.ok tx, q) ∧
      tx.txOut.length = 2 ∧
      tx.txOut.Pairwise (fun a b => a.value ≤ b.value) ∧
      (tx.txOut.map TxOut.value).sum = 200000 - 142 := by
  have h := (claim_C5 toyPrims c5Params
      { txHash := testHash1, outputIndex := 0, amount := 200000,
        scriptPubKey := [] }
      (toyPt 3) (toyPt 5) ([0, 20] ++ List.replicate 20 3)
      toyPrims_ser_len rfl rfl rfl (by norm_num [c5Params])
      (by norm_num [c5Params, MinFeeRate]) (by decide) (by decide)).1
    (by decide)
  obtain ⟨tx, q, h1, h2, h3, h4⟩ := h
  refine ⟨tx, q, h1, h2, h3, ?_⟩
  rw [h4]
  decide

end ArkTx
